import Mathlib

/-!
Shallow embedding of the credential-lifecycle core of the humanoid-AI backend
(Django, `backend/accounts`): the `AuthToken` store (`models_token.py`), the
HuggingFace credential pool and assignment ledger (`models.py`), the
cookie-based authenticator (`authentication.py`), and the login / refresh /
logout handlers (`views.py`), together with the retention sweeper.

Modelling conventions:
- Database tables become Lean lists in row-insertion order.  `auto_now_add`
  timestamps are strictly increasing along the list, so a queryset ordered by
  `['-created_at']` (the `Meta.ordering` of `AuthToken`, `HuggingFaceToken`
  and, via `-assigned_at`, `UserHFTokenAssignment`) is the reverse of the list.
- Timestamps are `Int` seconds; `timedelta(days=d)` is `d * 86400`.
- `timezone.now()` is an external input: a function that makes several clock
  reads receives one `Int` per read, in call order, with reads non-decreasing.
- The SHA-256 digest `AuthToken.hash_token` is opaque: a presented raw token
  is modelled as a `RawToken` carrying the digest the hash function would
  produce, its `jti`/user claims, and whether the external JWT collaborator
  (`simplejwt`) accepts its signature and expiry claim (`structOk`).
- Fresh autoincrement row ids are passed in as parameters.
-/

namespace HumanoidAI

/-- Token type of an `auth_tokens` row (`TOKEN_TYPE_CHOICES` in
`models_token.py`). -/
inductive TokenType where
  | access
  | refresh
deriving DecidableEq, Repr

/-- A row of the `auth_tokens` table (`accounts/models_token.py`, class
`AuthToken`).  `refreshTokenId` is the nullable self-referencing foreign key
`refresh_token` (`on_delete=CASCADE`). -/
structure AuthToken where
  id : Nat
  userId : Nat
  tokenType : TokenType
  tokenHash : String
  jti : String
  ipAddress : Option String
  userAgent : String
  createdAt : Int
  expiresAt : Int
  revokedAt : Option Int
  isRevoked : Bool
  refreshTokenId : Option Nat
deriving DecidableEq, Repr

/-- `AuthToken.is_expired`: `timezone.now() > self.expires_at`. -/
def AuthToken.is_expired (t : AuthToken) (now : Int) : Bool :=
  decide (now > t.expiresAt)

/-- `AuthToken.is_valid`: `not self.is_revoked and not self.is_expired()`. -/
def AuthToken.is_valid (t : AuthToken) (now : Int) : Bool :=
  !t.isRevoked && !(t.is_expired now)

/-- The child update performed by `AuthToken.revoke` on the queryset
`self.access_tokens.filter(is_revoked=False)`: rows whose `refresh_token`
foreign key is the revoked record and which are not yet revoked get
`is_revoked=True, revoked_at=now` (the second clock read, `t2`). -/
def revokeChildUpdate (parentId : Nat) (t2 : Int) (s : AuthToken) : AuthToken :=
  if s.refreshTokenId = some parentId ∧ s.isRevoked = false then
    { s with isRevoked := true, revokedAt := some t2 }
  else s

/-- `AuthToken.revoke` acting on the whole table.  `tokId` identifies the
record the method is called on; `t1` is the value of the first
`timezone.now()` call (line 92, stored on the record itself), `t2` the value
of the second call (line 99, stored on the cascaded children).  No-op if the
record is absent or already revoked. -/
def revoke (store : List AuthToken) (tokId : Nat) (t1 t2 : Int) : List AuthToken :=
  match store.find? (fun t => decide (t.id = tokId)) with
  | none => store
  | some r =>
    if r.isRevoked then store
    else
      let store1 := store.map (fun s =>
        if s.id = tokId then { s with isRevoked := true, revokedAt := some t1 } else s)
      if r.tokenType = TokenType.refresh then
        store1.map (revokeChildUpdate tokId t2)
      else store1

/-- `AuthToken.revoke_all_user_tokens`: bulk update of every non-revoked row
of the user. -/
def revoke_all_user_tokens (store : List AuthToken) (userId : Nat) (now : Int) :
    List AuthToken :=
  store.map (fun s =>
    if s.userId = userId ∧ s.isRevoked = false then
      { s with isRevoked := true, revokedAt := some now }
    else s)

/-- The filter of `AuthToken.cleanup_expired_tokens`:
`Q(expires_at__lt=cutoff) | Q(revoked_at__lt=cutoff)` (a NULL `revoked_at`
matches neither arm). -/
def matchesCutoff (cutoff : Int) (t : AuthToken) : Bool :=
  decide (t.expiresAt < cutoff) ||
    (match t.revokedAt with
     | some r => decide (r < cutoff)
     | none => false)

/-- Django `delete()` collects `on_delete=CASCADE` children transitively, so a
row is deleted when some ancestor along the `refresh_token` parent chain
matches the cutoff filter.  The chain is followed with fuel (the table parents
form a forest in every reachable state: access rows point at a parentless
refresh row). -/
def inCascade (store : List AuthToken) (cutoff : Int) : Nat → AuthToken → Bool
  | 0, t => matchesCutoff cutoff t
  | fuel+1, t =>
    matchesCutoff cutoff t ||
      (match t.refreshTokenId with
       | some p =>
         match store.find? (fun s => decide (s.id = p)) with
         | some parent => inCascade store cutoff fuel parent
         | none => false
       | none => false)

/-- `AuthToken.cleanup_expired_tokens(days_to_keep)`: deletes the rows
matching the cutoff filter together with their CASCADE children. -/
def cleanup_expired_tokens (store : List AuthToken) (now : Int) (daysToKeep : Int) :
    List AuthToken :=
  let cutoff := now - daysToKeep * 86400
  store.filter (fun t => !(inCascade store cutoff store.length t))

/-- A raw bearer token as presented on the transport.  `hash` is the digest
`AuthToken.hash_token` computes on it; `jti` and `userId` are its signed
claims; `structOk` records whether the external JWT collaborator accepts its
signature and expiry claim (`get_validated_token` / `RefreshToken(...)`). -/
structure RawToken where
  hash : String
  jti : String
  userId : Nat
  structOk : Bool
deriving DecidableEq, Repr

/-- Outcome of `CookieJWTAuthentication.authenticate`. -/
inductive AuthResult where
  | anonymous
  | failed
  | success (userId : Nat)
deriving DecidableEq, Repr

/-- The database lookup of `CookieJWTAuthentication.authenticate` (lines
35-40): `AuthToken.objects.filter(token_hash=..., token_type='access').first()`.
`token_hash` is unique, so queryset order is irrelevant to the result. -/
def dbLookupAccess (store : List AuthToken) (hash : String) : Option AuthToken :=
  store.find? (fun t => decide (t.tokenHash = hash ∧ t.tokenType = TokenType.access))

/-- Store-side validation portion of `authenticate` (lines 35-52): hash
lookup among access rows, then the revocation and expiry checks.  A pure
read: it takes the store and returns only the record found. -/
def validateToken (store : List AuthToken) (hash : String) (now : Int) :
    Option AuthToken :=
  match dbLookupAccess store hash with
  | none => none
  | some db =>
    if db.isRevoked then none
    else if db.is_expired now then none
    else some db

/-- `CookieJWTAuthentication.authenticate`: cookie first, header fallback;
structural JWT validation; then the store-side checks.  A raised
`AuthenticationFailed` / `InvalidToken` is `failed`; returning `None` is
`anonymous`. -/
def authenticate (store : List AuthToken) (cookieToken headerToken : Option RawToken)
    (now : Int) : AuthResult :=
  match cookieToken <|> headerToken with
  | none => AuthResult.anonymous
  | some raw =>
    if !raw.structOk then AuthResult.failed
    else
      match validateToken store raw.hash now with
      | none => AuthResult.failed
      | some _ => AuthResult.success raw.userId

/-- A row of the `huggingface_tokens` table (`accounts/models.py`, class
`HuggingFaceToken`).  `Meta.ordering = ['-created_at']`. -/
structure HuggingFaceToken where
  id : Nat
  token : String
  name : String
  isActive : Bool
  createdAt : Int
deriving DecidableEq, Repr

/-- A row of the `user_hf_token_assignments` table (`accounts/models.py`,
class `UserHFTokenAssignment`). -/
structure UserHFTokenAssignment where
  id : Nat
  userId : Nat
  hfTokenId : Nat
  assignedAt : Int
  releasedAt : Option Int
  isActive : Bool
  sessionIdentifier : String
deriving DecidableEq, Repr

/-- The queryset `HuggingFaceToken.objects.filter(is_active=True)`: table
rows ordered by `Meta.ordering ['-created_at']`; with `auto_now_add`
timestamps this is the reverse of pool-insertion order. -/
def activeOrdered (pool : List HuggingFaceToken) : List HuggingFaceToken :=
  (pool.filter (fun t => t.isActive)).reverse

/-- `token.assignments.filter(is_active=True).count()`. -/
def activeCount (asg : List UserHFTokenAssignment) (tokId : Nat) : Nat :=
  (asg.filter (fun a => decide (a.hfTokenId = tokId) && a.isActive)).length

/-- One insertion step of a stable ascending sort on the usage count (the
second component), placing the new pair before the first pair of equal or
larger count — the ordering semantics of Python's stable `list.sort`. -/
def insertLoad (p : HuggingFaceToken × Nat) :
    List (HuggingFaceToken × Nat) → List (HuggingFaceToken × Nat)
  | [] => [p]
  | q :: qs => if p.2 ≤ q.2 then p :: q :: qs else q :: insertLoad p qs

/-- Stable ascending sort by usage count: `token_usage.sort(key=lambda x: x[1])`. -/
def sortLoad : List (HuggingFaceToken × Nat) → List (HuggingFaceToken × Nat)
  | [] => []
  | p :: ps => insertLoad p (sortLoad ps)

/-- The selection inside `LoginView._assign_hf_token` (views.py lines
254-269): the active queryset (newest first), its `(token, active_count)`
usage list, a stable sort by count, and the first element; `none` when no
active entry exists. -/
def select_least_loaded (pool : List HuggingFaceToken)
    (asg : List UserHFTokenAssignment) : Option HuggingFaceToken :=
  let avail := activeOrdered pool
  if avail.isEmpty then none
  else
    let usage := avail.map (fun t => (t, activeCount asg t.id))
    match sortLoad usage with
    | [] => none
    | (t, _) :: _ => some t

/-- `LoginView._assign_hf_token`: select the least-loaded entry and create an
active Assignment row bound to it; returns the ledger unchanged (and no
entry) when the pool has no active entry. -/
def assign_hf_token (pool : List HuggingFaceToken) (asg : List UserHFTokenAssignment)
    (userId : Nat) (sessionId : String) (now : Int) (newId : Nat) :
    List UserHFTokenAssignment × Option HuggingFaceToken :=
  match select_least_loaded pool asg with
  | none => (asg, none)
  | some t =>
    (asg ++ [{ id := newId, userId := userId, hfTokenId := t.id, assignedAt := now,
               releasedAt := none, isActive := true, sessionIdentifier := sessionId }],
     some t)

/-- `LogoutView._release_hf_token`: bulk update of the rows matching
`(user, session_identifier, is_active=True)` to inactive with `released_at`
set. -/
def release_hf_token (asg : List UserHFTokenAssignment) (userId : Nat)
    (sessionId : String) (now : Int) : List UserHFTokenAssignment :=
  asg.map (fun a =>
    if a.userId = userId ∧ a.sessionIdentifier = sessionId ∧ a.isActive = true then
      { a with isActive := false, releasedAt := some now }
    else a)

/-- HTTP-level outcome of `LogoutView.post`. -/
structure LogoutResponse where
  status : Nat
  cookiesCleared : Bool
deriving DecidableEq, Repr

/-- Combined post-state of `LogoutView.post`. -/
structure LogoutOutcome where
  store : List AuthToken
  assignments : List UserHFTokenAssignment
  response : LogoutResponse
deriving DecidableEq, Repr

/-- `LogoutView.post` (views.py lines 385-426), given an authenticated
`userId` (the view is `IsAuthenticated`-gated).  With a refresh cookie
present, `RefreshToken(refresh_token_str)` parses it — when structural
validation fails the raised exception lands in the `except` branch, which
returns 400 WITHOUT clearing cookies.  Otherwise the Assignment for the
token's `jti` is released, and if a refresh row with the cookie's hash
exists, all rows whose `refresh_token` FK points at it and then the row
itself are DELETED from the table. -/
def logoutPost (store : List AuthToken) (asg : List UserHFTokenAssignment)
    (userId : Nat) (refreshCookie : Option RawToken) (now : Int) : LogoutOutcome :=
  match refreshCookie with
  | none => ⟨store, asg, ⟨200, true⟩⟩
  | some tok =>
    if !tok.structOk then ⟨store, asg, ⟨400, false⟩⟩
    else
      let asg' := release_hf_token asg userId tok.jti now
      match store.find? (fun t =>
          decide (t.tokenHash = tok.hash ∧ t.tokenType = TokenType.refresh)) with
      | none => ⟨store, asg', ⟨200, true⟩⟩
      | some r =>
        let store' := store.filter (fun s =>
          !(decide (s.refreshTokenId = some r.id) || decide (s.id = r.id)))
        ⟨store', asg', ⟨200, true⟩⟩

/-- A freshly minted signed token as returned by the external JWT
collaborator: its digest, `jti` claim and `exp` claim. -/
structure MintedToken where
  hash : String
  jti : String
  exp : Int
deriving DecidableEq, Repr

/-- `save_token_to_db` (views.py lines 39-78): appends one row built from the
decoded token claims; `parentId` is the `refresh_token_obj` argument. -/
def save_token_to_db (store : List AuthToken) (userId : Nat) (tokenType : TokenType)
    (minted : MintedToken) (ip : Option String) (ua : String) (now : Int)
    (newId : Nat) (parentId : Option Nat) : List AuthToken × AuthToken :=
  let row : AuthToken :=
    { id := newId, userId := userId, tokenType := tokenType,
      tokenHash := minted.hash, jti := minted.jti, ipAddress := ip,
      userAgent := ua, createdAt := now, expiresAt := minted.exp,
      revokedAt := none, isRevoked := false, refreshTokenId := parentId }
  (store ++ [row], row)

/-- HTTP-level outcome of `TokenRefreshView.post`. -/
structure RefreshResponse where
  status : Nat
  accessCookieSet : Bool
  refreshCookieSet : Bool
deriving DecidableEq, Repr

/-- Combined post-state of `TokenRefreshView.post`. -/
structure RefreshOutcome where
  store : List AuthToken
  assignments : List UserHFTokenAssignment
  response : RefreshResponse
deriving DecidableEq, Repr

/-- `TokenRefreshView.post` (views.py lines 293-355): cookie check; database
lookup `filter(token_hash=..., token_type='refresh', is_revoked=False).first()`
plus `is_valid()`; structural parse `RefreshToken(...)` (a raised error lands
in the catch-all and yields 401); then the minted access token is saved with
the presented refresh row as parent and only the access cookie is rebound.
The assignment ledger is passed through untouched. -/
def tokenRefreshPost (store : List AuthToken) (asg : List UserHFTokenAssignment)
    (refreshCookie : Option RawToken) (mintedAccess : MintedToken)
    (ip : Option String) (ua : String) (now : Int) (newId : Nat) : RefreshOutcome :=
  match refreshCookie with
  | none => ⟨store, asg, ⟨401, false, false⟩⟩
  | some tok =>
    match store.find? (fun t =>
        decide (t.tokenHash = tok.hash ∧ t.tokenType = TokenType.refresh ∧
          t.isRevoked = false)) with
    | none => ⟨store, asg, ⟨401, false, false⟩⟩
    | some db =>
      if !(db.is_valid now) then ⟨store, asg, ⟨401, false, false⟩⟩
      else if !tok.structOk then ⟨store, asg, ⟨401, false, false⟩⟩
      else
        let saved := save_token_to_db store db.userId TokenType.access mintedAccess
          ip ua now newId (some db.id)
        ⟨saved.1, asg, ⟨200, true, false⟩⟩

/-- HTTP-level outcome of `LoginView.post`. -/
structure LoginResponse where
  status : Nat
  accessCookieSet : Bool
  refreshCookieSet : Bool
deriving DecidableEq, Repr

/-- Combined post-state of `LoginView.post`. -/
structure LoginOutcome where
  store : List AuthToken
  assignments : List UserHFTokenAssignment
  response : LoginResponse
deriving DecidableEq, Repr

/-- `LoginView.post` (views.py lines 177-221): credential check (the result
of `django.contrib.auth.authenticate`, `none` when invalid), `is_active`
check, HF assignment keyed by the refresh token's `jti`, persistence of the
refresh row and of the access row parented to it, 200 with both cookies
set. -/
def loginPost (store : List AuthToken) (asg : List UserHFTokenAssignment)
    (pool : List HuggingFaceToken) (authUser : Option Nat) (userIsActive : Bool)
    (mintedRefresh mintedAccess : MintedToken) (ip : Option String) (ua : String)
    (now : Int) (asgId refreshRowId accessRowId : Nat) : LoginOutcome :=
  match authUser with
  | none => ⟨store, asg, ⟨401, false, false⟩⟩
  | some uid =>
    if !userIsActive then ⟨store, asg, ⟨401, false, false⟩⟩
    else
      let sessionId := mintedRefresh.jti
      let assigned := assign_hf_token pool asg uid sessionId now asgId
      let saved1 := save_token_to_db store uid TokenType.refresh mintedRefresh
        ip ua now refreshRowId none
      let saved2 := save_token_to_db saved1.1 uid TokenType.access mintedAccess
        ip ua now accessRowId (some saved1.2.id)
      ⟨saved2.1, assigned.1, ⟨200, true, true⟩⟩

/-- `ChatService._get_api_token` (chat/services.py lines 58-76): first active
assignment of the user in queryset order (`['-assigned_at']`, i.e. reverse
insertion order); its pool entry's secret when that entry is still active;
otherwise the configured fallback `settings.HUGGINGFACE_API_TOKEN`. -/
def get_api_token (pool : List HuggingFaceToken) (asg : List UserHFTokenAssignment)
    (userId : Option Nat) (settingsToken : String) : String :=
  match userId with
  | none => settingsToken
  | some uid =>
    match asg.reverse.find? (fun a => decide (a.userId = uid ∧ a.isActive = true)) with
    | none => settingsToken
    | some a =>
      match pool.find? (fun t => decide (t.id = a.hfTokenId)) with
      | some t => if t.isActive then t.token else settingsToken
      | none => settingsToken

/-- First-minimum selection on usage pairs: the recurrence satisfied by the
head of `sortLoad` (used to reason about the selection). -/
def pickMin : List (HuggingFaceToken × Nat) → Option (HuggingFaceToken × Nat)
  | [] => none
  | p :: ps =>
    match pickMin ps with
    | none => some p
    | some q => if p.2 ≤ q.2 then some p else some q

/-- An operation on the assignment ledger: the two ledger mutations the
views perform (`_assign_hf_token` at login, `_release_hf_token` at
logout). -/
inductive PoolOp where
  | assign (userId : Nat) (sessionId : String) (now : Int) (newId : Nat)
  | release (userId : Nat) (sessionId : String) (now : Int)
deriving DecidableEq, Repr

/-- Apply one ledger operation against a fixed credential pool. -/
def applyPoolOp (pool : List HuggingFaceToken) (asg : List UserHFTokenAssignment) :
    PoolOp → List UserHFTokenAssignment
  | PoolOp.assign u s n i => (assign_hf_token pool asg u s n i).1
  | PoolOp.release u s n => release_hf_token asg u s n

/-- Apply a sequence of ledger operations in order. -/
def applyPoolOps (pool : List HuggingFaceToken) (asg : List UserHFTokenAssignment) :
    List PoolOp → List UserHFTokenAssignment
  | [] => asg
  | op :: ops => applyPoolOps pool (applyPoolOp pool asg op) ops

/-- Number of active assignments bound to a session identifier. -/
def activeForSession (asg : List UserHFTokenAssignment) (sid : String) : Nat :=
  (asg.filter (fun a => a.isActive && decide (a.sessionIdentifier = sid))).length

/-- Each `assign` in the trace uses a session identifier not present on any
ledger row at the moment it executes — the discipline the program follows,
since every login mints a fresh refresh-token `jti`. -/
def freshAssigns (pool : List HuggingFaceToken) :
    List UserHFTokenAssignment → List PoolOp → Bool
  | _, [] => true
  | asg, op :: ops =>
    (match op with
     | PoolOp.assign _ s _ _ => asg.all (fun a => decide (a.sessionIdentifier ≠ s))
     | PoolOp.release _ _ _ => true) && freshAssigns pool (applyPoolOp pool asg op) ops

/-! Concrete fixtures used by counterexamples and witnesses. -/

/-- An early-inserted active pool entry. -/
def hfA : HuggingFaceToken :=
  { id := 1, token := "secA", name := "A", isActive := true, createdAt := 10 }

/-- A later-inserted active pool entry. -/
def hfB : HuggingFaceToken :=
  { id := 2, token := "secB", name := "B", isActive := true, createdAt := 20 }

/-- An inactive pool entry. -/
def hfOff : HuggingFaceToken :=
  { id := 3, token := "secC", name := "C", isActive := false, createdAt := 30 }

/-- A live refresh-token row. -/
def refreshRec : AuthToken :=
  { id := 1, userId := 7, tokenType := TokenType.refresh, tokenHash := "hR",
    jti := "j1", ipAddress := none, userAgent := "", createdAt := 0,
    expiresAt := 1000, revokedAt := none, isRevoked := false,
    refreshTokenId := none }

/-- A live access-token row, child of `refreshRec`. -/
def accessRec : AuthToken :=
  { id := 2, userId := 7, tokenType := TokenType.access, tokenHash := "hA",
    jti := "j2", ipAddress := none, userAgent := "", createdAt := 0,
    expiresAt := 500, revokedAt := none, isRevoked := false,
    refreshTokenId := some 1 }

/-- The raw refresh token matching `refreshRec`, structurally valid. -/
def rawRefresh : RawToken :=
  { hash := "hR", jti := "j1", userId := 7, structOk := true }

/-- The raw refresh token matching `refreshRec`, rejected by the external
JWT collaborator (for instance its `exp` claim has passed). -/
def rawRefreshBad : RawToken :=
  { hash := "hR", jti := "j1", userId := 7, structOk := false }

/-- The raw access token matching `accessRec`, structurally valid. -/
def rawAccess : RawToken :=
  { hash := "hA", jti := "j2", userId := 7, structOk := true }

/-- A refresh row whose expiry (day 60) lies beyond the 30-day retention
window at `now` = day 100 (timestamps in seconds). -/
def oldRefreshRec : AuthToken :=
  { id := 1, userId := 7, tokenType := TokenType.refresh, tokenHash := "hR",
    jti := "j1", ipAddress := none, userAgent := "", createdAt := 0,
    expiresAt := 5184000, revokedAt := none, isRevoked := false,
    refreshTokenId := none }

/-- A non-revoked access row expiring at day 200 — valid at day 100 — whose
parent is `oldRefreshRec`. -/
def freshAccessRec : AuthToken :=
  { id := 2, userId := 7, tokenType := TokenType.access, tokenHash := "hA",
    jti := "j2", ipAddress := none, userAgent := "", createdAt := 0,
    expiresAt := 17280000, revokedAt := none, isRevoked := false,
    refreshTokenId := some 1 }

/-- A parentless refresh row that is neither expired nor revoked at day 100
(`expires_at` just past day 104). -/
def keeperRec : AuthToken :=
  { id := 3, userId := 7, tokenType := TokenType.refresh, tokenHash := "hK",
    jti := "jK", ipAddress := none, userAgent := "", createdAt := 0,
    expiresAt := 9000000, revokedAt := none, isRevoked := false,
    refreshTokenId := none }

/-- An active assignment bound to session `j1` (the `jti` of `refreshRec`). -/
def asgActive : UserHFTokenAssignment :=
  { id := 1, userId := 7, hfTokenId := 1, assignedAt := 0, releasedAt := none,
    isActive := true, sessionIdentifier := "j1" }

/-- A minted refresh token for login fixtures. -/
def mintedR : MintedToken := { hash := "hR", jti := "j1", exp := 1000 }

/-- A minted access token for login fixtures. -/
def mintedA : MintedToken := { hash := "hA", jti := "j2", exp := 500 }

/-- A minted access token for the refresh-transition fixtures. -/
def mintedA2 : MintedToken := { hash := "hA2", jti := "j3", exp := 900 }

/-- A trace that reuses one session identifier for two assigns. -/
def opsDup : List PoolOp := [PoolOp.assign 7 "s" 0 1, PoolOp.assign 7 "s" 0 2]

/-- A trace of assigns and releases with fresh session identifiers. -/
def opsW : List PoolOp :=
  [PoolOp.assign 7 "s1" 0 1, PoolOp.release 7 "s1" 1, PoolOp.assign 7 "s2" 2 2]

/-! ## Helper lemmas -/

/-- `find?` returns the designated element when it satisfies the predicate
and is the only element of the list doing so. -/
theorem find?_eq_some_of_unique {α : Type} (p : α → Bool) {l : List α} {r : α}
    (hr : r ∈ l) (hpr : p r = true) (huniq : ∀ s ∈ l, p s = true → s = r) :
    l.find? p = some r := by
  induction l with
  | nil => cases hr
  | cons a l ih =>
    by_cases ha : p a = true
    · have har : a = r := huniq a (List.mem_cons_self a l) ha
      rw [List.find?_cons_of_pos _ ha, har]
    · have hra : r ≠ a := fun h => ha (h ▸ hpr)
      have hrl : r ∈ l := by
        rcases List.mem_cons.mp hr with h | h
        · exact absurd h hra
        · exact h
      rw [List.find?_cons_of_neg _ (by simpa using ha)]
      exact ih hrl (fun s hs hps => huniq s (List.mem_cons_of_mem _ hs) hps)

/-- In a store with pairwise distinct `token_hash` values (the table's unique
constraint), any lookup whose predicate pins down the hash finds exactly the
row with that hash; queryset ordering is irrelevant. -/
theorem store_find_by_hash (p : AuthToken → Bool) {store : List AuthToken}
    {r : AuthToken} (hnd : (store.map AuthToken.tokenHash).Nodup)
    (hr : r ∈ store) (hpr : p r = true)
    (himp : ∀ s, p s = true → s.tokenHash = r.tokenHash) :
    store.find? p = some r :=
  find?_eq_some_of_unique p hr hpr
    (fun s hs hps => List.inj_on_of_nodup_map hnd hs hr (himp s hps))

/-! ## C5 -/

/-- C5, counterexample to the claim as stated: for the access record with
`expires_at = 500`, validation at `now = 500` succeeds although
`now < expires_at` fails — the code's expiry test is `now > expires_at`
(`AuthToken.is_expired`), so the success condition is `now ≤ expires_at`,
not `now < expires_at`. -/
theorem validate_boundary_counterexample :
    validateToken [accessRec] "hA" 500 = some accessRec ∧
      ¬((500 : Int) < accessRec.expiresAt) := by
  constructor
  · rfl
  · decide

/-- C5 (amended): for every issued access-type TokenRecord, store-side
validation returns the record iff it is not revoked and `now ≤ expires_at`
(the hash-exists conjunct is the membership hypothesis; `validateToken` is a
pure read of the store, so no mutation occurs). -/
theorem validate_iff_spec (store : List AuthToken) (hash : String) (now : Int)
    (hnd : (store.map AuthToken.tokenHash).Nodup) (r : AuthToken)
    (hr : r ∈ store) (hhash : r.tokenHash = hash)
    (haccess : r.tokenType = TokenType.access) :
    validateToken store hash now = some r ↔
      r.isRevoked = false ∧ now ≤ r.expiresAt := by
  have hfind : dbLookupAccess store hash = some r := by
    apply store_find_by_hash _ hnd hr
    · simp [hhash, haccess]
    · intro s hps
      simp only [decide_eq_true_eq] at hps
      rw [hps.1, hhash]
  unfold validateToken
  rw [hfind]
  cases hrev : r.isRevoked with
  | true =>
    simp only [hrev, if_true]
    constructor
    · intro h; cases h
    · rintro ⟨h1, _⟩; cases h1
  | false =>
    cases hexp : r.is_expired now with
    | true =>
      have hgt : r.expiresAt < now := by
        have := hexp
        unfold AuthToken.is_expired at this
        simpa using this
      simp only [hrev, if_false, hexp, if_true, Bool.false_eq_true]
      constructor
      · intro h; cases h
      · rintro ⟨_, h2⟩; omega
    | false =>
      have hle : now ≤ r.expiresAt := by
        have := hexp
        unfold AuthToken.is_expired at this
        simpa using this
      simp [hrev, hexp, hle]

/-- C5, witness: the amended validation contract applied at a concrete
store. -/
theorem validate_iff_spec_witness :
    (([accessRec].map AuthToken.tokenHash).Nodup ∧ accessRec ∈ [accessRec] ∧
      accessRec.tokenHash = "hA" ∧ accessRec.tokenType = TokenType.access) ∧
    (validateToken [accessRec] "hA" 100 = some accessRec ↔
      accessRec.isRevoked = false ∧ (100 : Int) ≤ accessRec.expiresAt) :=
  ⟨by decide,
   validate_iff_spec [accessRec] "hA" 100 (by decide) accessRec (by decide)
     (by decide) (by decide)⟩

/-! ## C10 -/

/-- C10: the per-request authenticator only accepts access-type records — a
presented bearer token whose store row is refresh-typed is rejected with an
authentication failure, whatever its revocation or expiry state. -/
theorem authenticate_rejects_refresh_type (store : List AuthToken)
    (raw : RawToken) (hdr : Option RawToken) (now : Int)
    (hnd : (store.map AuthToken.tokenHash).Nodup) (r : AuthToken)
    (hr : r ∈ store) (hhash : r.tokenHash = raw.hash)
    (htype : r.tokenType = TokenType.refresh) :
    authenticate store (some raw) hdr now = AuthResult.failed := by
  have hnone : dbLookupAccess store raw.hash = none := by
    apply List.find?_eq_none.mpr
    intro s hs hps
    simp only [decide_eq_true_eq] at hps
    have hsr : s = r :=
      List.inj_on_of_nodup_map hnd hs hr (hps.1.trans hhash.symm)
    rw [hsr, htype] at hps
    cases hps.2
  unfold authenticate
  cases hstruct : raw.structOk with
  | false => simp [hstruct]
  | true => simp [hstruct, validateToken, hnone]

/-- C10, witness: a live, unrevoked refresh record is rejected by the
authenticator. -/
theorem authenticate_rejects_refresh_type_witness :
    (([refreshRec].map AuthToken.tokenHash).Nodup ∧ refreshRec ∈ [refreshRec] ∧
      refreshRec.tokenHash = rawRefresh.hash ∧
      refreshRec.tokenType = TokenType.refresh ∧ refreshRec.isRevoked = false ∧
      (100 : Int) ≤ refreshRec.expiresAt) ∧
    authenticate [refreshRec] (some rawRefresh) none 100 = AuthResult.failed :=
  ⟨by decide,
   authenticate_rejects_refresh_type [refreshRec] rawRefresh none 100
     (by decide) refreshRec (by decide) (by decide) (by decide)⟩

/-! ## Release lemmas shared by the logout theorems -/

/-- After `_release_hf_token`, every ledger row matching the released user
and session is inactive. -/
theorem release_hf_token_inactive (asg : List UserHFTokenAssignment)
    (u : Nat) (s : String) (n : Int) :
    ∀ a ∈ release_hf_token asg u s n,
      a.userId = u → a.sessionIdentifier = s → a.isActive = false := by
  intro a ha hu hsid
  unfold release_hf_token at ha
  rcases List.mem_map.mp ha with ⟨b, hb, hba⟩
  by_cases hcond : b.userId = u ∧ b.sessionIdentifier = s ∧ b.isActive = true
  · rw [if_pos hcond] at hba
    rw [← hba]
  · rw [if_neg hcond] at hba
    subst hba
    cases hact : b.isActive
    · rfl
    · exact absurd ⟨hu, hsid, hact⟩ hcond

/-- `_release_hf_token` is a row update: it never deletes ledger rows. -/
theorem release_hf_token_length (asg : List UserHFTokenAssignment)
    (u : Nat) (s : String) (n : Int) :
    (release_hf_token asg u s n).length = asg.length :=
  List.length_map asg _

/-! ## C2 -/

/-- C2, counterexample to the claim as stated: a logout carrying an
already-invalid (structurally rejected, e.g. expired) refresh token takes
the handler's `except` branch, which returns 400 and does NOT clear the
transport cookies — the transport is left holding the dead credential. -/
theorem logout_invalid_token_counterexample :
    (logoutPost [refreshRec] [] 7 (some rawRefreshBad) 50).response.status = 400 ∧
    (logoutPost [refreshRec] [] 7 (some rawRefreshBad) 50).response.cookiesCleared
      = false := by
  constructor <;> rfl

/-- C2 (amended): logout clears the transport and returns success whenever
the refresh cookie is absent or still structurally parseable — including a
second logout on the same session and tokens unknown to the store — but a
refresh cookie the JWT collaborator rejects lands in the exception path,
which errors without clearing the transport. -/
theorem logout_transport_clearing (store : List AuthToken)
    (asg : List UserHFTokenAssignment) (userId : Nat)
    (cookie : Option RawToken) (now : Int)
    (h : cookie = none ∨ ∃ tok, cookie = some tok ∧ tok.structOk = true) :
    (logoutPost store asg userId cookie now).response.status = 200 ∧
    (logoutPost store asg userId cookie now).response.cookiesCleared = true := by
  rcases h with h | ⟨tok, rfl, hs⟩
  · subst h
    exact ⟨rfl, rfl⟩
  · unfold logoutPost
    simp only [hs, Bool.not_true, Bool.false_eq_true, if_false]
    cases store.find? (fun t =>
        decide (t.tokenHash = tok.hash ∧ t.tokenType = TokenType.refresh)) <;>
      exact ⟨rfl, rfl⟩

/-- C2, witness: a normal logout on a live session returns success with the
transport cleared. -/
theorem logout_transport_clearing_witness :
    (some rawRefresh = none ∨
      ∃ tok, some rawRefresh = some tok ∧ tok.structOk = true) ∧
    ((logoutPost [refreshRec, accessRec] [asgActive] 7
        (some rawRefresh) 50).response.status = 200) ∧
    ((logoutPost [refreshRec, accessRec] [asgActive] 7
        (some rawRefresh) 50).response.cookiesCleared = true) :=
  ⟨Or.inr ⟨rawRefresh, rfl, rfl⟩,
   logout_transport_clearing [refreshRec, accessRec] [asgActive] 7
     (some rawRefresh) 50 (Or.inr ⟨rawRefresh, rfl, rfl⟩)⟩

/-! ## C1 -/

/-- C1, counterexample to the claim as stated: logging out a live session
whose refresh record has one access child leaves the token store EMPTY —
the handler deletes the rows (`access_tokens.all().delete()` then
`delete()`) instead of revoking them in place, so no record is kept with
`is_revoked = true`. -/
theorem logout_deletes_counterexample :
    ((logoutPost [refreshRec, accessRec] [asgActive] 7
        (some rawRefresh) 50).store = []) ∧
    ((logoutPost [refreshRec, accessRec] [asgActive] 7
        (some rawRefresh) 50).response.status = 200) := by
  constructor <;> rfl

/-- C1 (amended): for a logout with a transport-bound, structurally
parseable refresh token whose record exists, the transition releases every
Assignment for that token's session identifier (the ledger rows are kept,
only deactivated) and DELETES the refresh TokenRecord together with all of
its child access TokenRecords from the store, leaving every unrelated
record in place. -/
theorem logout_releases_and_deletes (store : List AuthToken)
    (asg : List UserHFTokenAssignment) (userId : Nat) (tok : RawToken)
    (now : Int) (hs : tok.structOk = true)
    (hnd : (store.map AuthToken.tokenHash).Nodup) (r : AuthToken)
    (hr : r ∈ store) (hhash : r.tokenHash = tok.hash)
    (htype : r.tokenType = TokenType.refresh) :
    (logoutPost store asg userId (some tok) now).response.status = 200 ∧
    (logoutPost store asg userId (some tok) now).response.cookiesCleared = true ∧
    (∀ a ∈ (logoutPost store asg userId (some tok) now).assignments,
      a.userId = userId → a.sessionIdentifier = tok.jti → a.isActive = false) ∧
    (logoutPost store asg userId (some tok) now).assignments.length = asg.length ∧
    (∀ s ∈ store, (s.id = r.id ∨ s.refreshTokenId = some r.id) →
      s ∉ (logoutPost store asg userId (some tok) now).store) ∧
    (∀ s ∈ store, s.id ≠ r.id → s.refreshTokenId ≠ some r.id →
      s ∈ (logoutPost store asg userId (some tok) now).store) := by
  have hfind : store.find? (fun t =>
      decide (t.tokenHash = tok.hash ∧ t.tokenType = TokenType.refresh)) = some r := by
    apply store_find_by_hash _ hnd hr
    · simp [hhash, htype]
    · intro s hps
      simp only [decide_eq_true_eq] at hps
      rw [hps.1, hhash]
  have hER : logoutPost store asg userId (some tok) now =
      ⟨store.filter (fun s =>
          !(decide (s.refreshTokenId = some r.id) || decide (s.id = r.id))),
        release_hf_token asg userId tok.jti now, ⟨200, true⟩⟩ := by
    unfold logoutPost
    simp only [hs, Bool.not_true, Bool.false_eq_true, if_false, hfind]
  rw [hER]
  refine ⟨rfl, rfl, release_hf_token_inactive asg userId tok.jti now,
    release_hf_token_length asg userId tok.jti now, ?_, ?_⟩
  · intro s _ hcase hmem
    have hp := (List.mem_filter.mp hmem).2
    rcases hcase with hcase | hcase <;> simp [hcase] at hp
  · intro s hmem h1 h2
    exact List.mem_filter.mpr ⟨hmem, by simp [h1, h2]⟩

/-- C1, witness: the amended logout contract at a concrete two-record
store. -/
theorem logout_releases_and_deletes_witness :
    (rawRefresh.structOk = true ∧
      (([refreshRec, accessRec].map AuthToken.tokenHash).Nodup) ∧
      refreshRec ∈ [refreshRec, accessRec] ∧
      refreshRec.tokenHash = rawRefresh.hash ∧
      refreshRec.tokenType = TokenType.refresh) ∧
    ((logoutPost [refreshRec, accessRec] [asgActive] 7
        (some rawRefresh) 50).response.status = 200) ∧
    ((logoutPost [refreshRec, accessRec] [asgActive] 7
        (some rawRefresh) 50).response.cookiesCleared = true) ∧
    (∀ a ∈ (logoutPost [refreshRec, accessRec] [asgActive] 7
        (some rawRefresh) 50).assignments,
      a.userId = 7 → a.sessionIdentifier = rawRefresh.jti → a.isActive = false) ∧
    ((logoutPost [refreshRec, accessRec] [asgActive] 7
        (some rawRefresh) 50).assignments.length = [asgActive].length) ∧
    (∀ s ∈ [refreshRec, accessRec],
      (s.id = refreshRec.id ∨ s.refreshTokenId = some refreshRec.id) →
      s ∉ (logoutPost [refreshRec, accessRec] [asgActive] 7
        (some rawRefresh) 50).store) ∧
    (∀ s ∈ [refreshRec, accessRec], s.id ≠ refreshRec.id →
      s.refreshTokenId ≠ some refreshRec.id →
      s ∈ (logoutPost [refreshRec, accessRec] [asgActive] 7
        (some rawRefresh) 50).store) :=
  ⟨⟨rfl, by decide, by decide, rfl, rfl⟩,
   logout_releases_and_deletes [refreshRec, accessRec] [asgActive] 7 rawRefresh
     50 rfl (by decide) refreshRec (by decide) rfl rfl⟩

/-! ## C4 -/

/-- C4, counterexample to the claim as stated: revoking a refresh record
with one non-revoked access child stores the first clock read on the parent
(`revoked_at = 100`, models_token.py line 92) and the second clock read on
the child (`revoked_at = 101`, line 99) — two separate `timezone.now()`
calls, so the N+1 records do not carry an identical `revoked_at`. -/
theorem revoke_timestamps_counterexample :
    ((revoke [refreshRec, accessRec] 1 100 101).map AuthToken.revokedAt)
      = [some 100, some 101] ∧ (100 : Int) ≠ 101 := by
  constructor
  · rfl
  · decide

/-- C4 (amended): revoking a non-revoked refresh record with N non-revoked
access children leaves all N+1 records revoked and kept in the store: the
parent carries the first clock read `t1`, every previously valid child
carries the second clock read `t2` (which may differ from `t1`),
already-revoked children and unrelated records are untouched, and no child
of the parent remains valid afterwards. -/
theorem revoke_cascade_spec (store : List AuthToken) (r : AuthToken)
    (t1 t2 : Int) (hnd : (store.map AuthToken.id).Nodup) (hr : r ∈ store)
    (htype : r.tokenType = TokenType.refresh) (hnrev : r.isRevoked = false)
    (hne : r.refreshTokenId ≠ some r.id) :
    ({ r with isRevoked := true, revokedAt := some t1 }
        ∈ revoke store r.id t1 t2) ∧
    (∀ c ∈ store, c.refreshTokenId = some r.id → c.isRevoked = false →
      { c with isRevoked := true, revokedAt := some t2 }
        ∈ revoke store r.id t1 t2) ∧
    (∀ c ∈ store, c.refreshTokenId = some r.id → c.isRevoked = true →
      c ∈ revoke store r.id t1 t2) ∧
    (∀ s ∈ store, s.id ≠ r.id → s.refreshTokenId ≠ some r.id →
      s ∈ revoke store r.id t1 t2) ∧
    (∀ c ∈ revoke store r.id t1 t2, c.refreshTokenId = some r.id →
      c.isRevoked = true) ∧
    (revoke store r.id t1 t2).length = store.length := by
  have hinj : ∀ s ∈ store, s.id = r.id → s = r := fun s hs h =>
    List.inj_on_of_nodup_map hnd hs hr h
  have hfind : store.find? (fun t => decide (t.id = r.id)) = some r := by
    apply find?_eq_some_of_unique _ hr (by simp)
    intro s hs hps
    exact hinj s hs (by simpa using hps)
  have hER : revoke store r.id t1 t2 =
      (store.map (fun s =>
        if s.id = r.id then { s with isRevoked := true, revokedAt := some t1 }
        else s)).map (revokeChildUpdate r.id t2) := by
    unfold revoke
    rw [hfind]
    simp [hnrev, htype]
  rw [hER]
  refine ⟨?_, ?_, ?_, ?_, ?_, ?_⟩
  · refine List.mem_map.mpr ⟨{ r with isRevoked := true, revokedAt := some t1 }, ?_, ?_⟩
    · exact List.mem_map.mpr ⟨r, hr, by rw [if_pos rfl]⟩
    · unfold revokeChildUpdate
      rw [if_neg]
      simp
  · intro c hc hcref hcrev
    have hcne : c.id ≠ r.id := by
      intro h
      exact hne ((hinj c hc h) ▸ hcref)
    refine List.mem_map.mpr ⟨c, List.mem_map.mpr ⟨c, hc, by rw [if_neg hcne]⟩, ?_⟩
    unfold revokeChildUpdate
    rw [if_pos ⟨hcref, hcrev⟩]
  · intro c hc hcref hcrev
    have hcne : c.id ≠ r.id := by
      intro h
      exact hne ((hinj c hc h) ▸ hcref)
    refine List.mem_map.mpr ⟨c, List.mem_map.mpr ⟨c, hc, by rw [if_neg hcne]⟩, ?_⟩
    unfold revokeChildUpdate
    rw [if_neg]
    rw [hcrev]
    simp
  · intro s hs hsid hsref
    refine List.mem_map.mpr ⟨s, List.mem_map.mpr ⟨s, hs, by rw [if_neg hsid]⟩, ?_⟩
    unfold revokeChildUpdate
    rw [if_neg]
    intro hcontra
    exact hsref hcontra.1
  · intro c hc hcref
    rcases List.mem_map.mp hc with ⟨b, _, hbc⟩
    unfold revokeChildUpdate at hbc
    by_cases hcond : b.refreshTokenId = some r.id ∧ b.isRevoked = false
    · rw [if_pos hcond] at hbc
      rw [← hbc]
    · rw [if_neg hcond] at hbc
      subst hbc
      cases hbrev : b.isRevoked
      · exact absurd ⟨hcref, hbrev⟩ hcond
      · rfl
  · rw [List.length_map, List.length_map]

/-- C4, witness: the amended cascade contract at the two-record store, using
clock reads 100 and 101. -/
theorem revoke_cascade_spec_witness :
    ((([refreshRec, accessRec].map AuthToken.id).Nodup) ∧
      refreshRec ∈ [refreshRec, accessRec] ∧
      refreshRec.tokenType = TokenType.refresh ∧
      refreshRec.isRevoked = false ∧
      refreshRec.refreshTokenId ≠ some refreshRec.id) ∧
    ({ refreshRec with isRevoked := true, revokedAt := some 100 }
        ∈ revoke [refreshRec, accessRec] refreshRec.id 100 101) ∧
    (∀ c ∈ [refreshRec, accessRec], c.refreshTokenId = some refreshRec.id →
      c.isRevoked = false →
      { c with isRevoked := true, revokedAt := some 101 }
        ∈ revoke [refreshRec, accessRec] refreshRec.id 100 101) ∧
    (∀ c ∈ [refreshRec, accessRec], c.refreshTokenId = some refreshRec.id →
      c.isRevoked = true →
      c ∈ revoke [refreshRec, accessRec] refreshRec.id 100 101) ∧
    (∀ s ∈ [refreshRec, accessRec], s.id ≠ refreshRec.id →
      s.refreshTokenId ≠ some refreshRec.id →
      s ∈ revoke [refreshRec, accessRec] refreshRec.id 100 101) ∧
    (∀ c ∈ revoke [refreshRec, accessRec] refreshRec.id 100 101,
      c.refreshTokenId = some refreshRec.id → c.isRevoked = true) ∧
    (revoke [refreshRec, accessRec] refreshRec.id 100 101).length
        = [refreshRec, accessRec].length :=
  ⟨⟨by decide, by decide, rfl, rfl, by decide⟩,
   revoke_cascade_spec [refreshRec, accessRec] refreshRec 100 101 (by decide)
     (by decide) rfl rfl (by decide)⟩

/-! ## C6 -/

/-- A row matching the cutoff filter is swept at any fuel. -/
theorem inCascade_of_matches (store : List AuthToken) (cutoff : Int) (n : Nat)
    (t : AuthToken) (h : matchesCutoff cutoff t = true) :
    inCascade store cutoff n t = true := by
  cases n <;> simp [inCascade, h]

/-- A parentless row that does not match the cutoff filter is never swept. -/
theorem inCascade_parentless (store : List AuthToken) (cutoff : Int) (n : Nat)
    (t : AuthToken) (hm : matchesCutoff cutoff t = false)
    (hp : t.refreshTokenId = none) :
    inCascade store cutoff n t = false := by
  cases n <;> simp [inCascade, hm, hp]

/-- C6, counterexample to the claim as stated: with a 30-day retention at
`now` = day 100, purging a store holding an old refresh row (expired day 60)
and its access child (non-revoked, expiring day 200) deletes BOTH rows: the
child is removed by the `on_delete=CASCADE` parent reference although it is
non-expired and non-revoked. -/
theorem purge_cascade_counterexample :
    cleanup_expired_tokens [oldRefreshRec, freshAccessRec] 8640000 30 = [] ∧
    freshAccessRec.isRevoked = false ∧
    (8640000 : Int) < freshAccessRec.expiresAt := by
  refine ⟨rfl, rfl, by decide⟩

/-- C6 (amended): `purge(retention_days)` deletes every record whose
`expires_at` or `revoked_at` is older than `now - retention_days`, and
additionally — through the `refresh_token` CASCADE — every child of a
deleted parent, even a non-expired, non-revoked one; a record with no
parent reference survives iff it does not match the cutoff filter, so in
particular a parentless non-expired, non-revoked record is never deleted. -/
theorem purge_spec (store : List AuthToken) (now days : Int) :
    (∀ t ∈ store, matchesCutoff (now - days * 86400) t = true →
      t ∉ cleanup_expired_tokens store now days) ∧
    (∀ t ∈ store, t.refreshTokenId = none →
      matchesCutoff (now - days * 86400) t = false →
      t ∈ cleanup_expired_tokens store now days) ∧
    (∀ t ∈ store, ∀ p : Nat, t.refreshTokenId = some p →
      ∀ parent : AuthToken,
        store.find? (fun s => decide (s.id = p)) = some parent →
        matchesCutoff (now - days * 86400) parent = true →
        t ∉ cleanup_expired_tokens store now days) ∧
    (∀ t ∈ store, t.refreshTokenId = none → t.revokedAt = none →
      now < t.expiresAt → 0 ≤ days →
      t ∈ cleanup_expired_tokens store now days) := by
  have hsafe : ∀ t ∈ store, t.refreshTokenId = none →
      matchesCutoff (now - days * 86400) t = false →
      t ∈ cleanup_expired_tokens store now days := by
    intro t ht hp hm
    unfold cleanup_expired_tokens
    exact List.mem_filter.mpr ⟨ht, by
      simp [inCascade_parentless store (now - days * 86400) store.length t hm hp]⟩
  refine ⟨?_, hsafe, ?_, ?_⟩
  · intro t ht hm hmem
    have := (List.mem_filter.mp hmem).2
    simp only [Bool.not_eq_true] at this
    rw [inCascade_of_matches store (now - days * 86400) store.length t hm] at this
    cases this
  · intro t ht p hp parent hfind hm hmem
    obtain ⟨m, hlen⟩ : ∃ m, store.length = m + 1 := by
      cases store with
      | nil => cases ht
      | cons a l => exact ⟨l.length, rfl⟩
    have hcascade : inCascade store (now - days * 86400) store.length t = true := by
      rw [hlen]
      unfold inCascade
      rw [hp]
      simp [hfind, inCascade_of_matches store (now - days * 86400) m parent hm]
    have := (List.mem_filter.mp hmem).2
    rw [hcascade] at this
    cases this
  · intro t ht hp hrev hexp hdays
    apply hsafe t ht hp
    unfold matchesCutoff
    rw [hrev]
    simp only [Bool.or_false, decide_eq_false_iff_not, not_lt]
    nlinarith

/-- C6, witness: a concrete purge deleting the old parent and its live child
while keeping an unrelated live record. -/
theorem purge_spec_witness :
    (oldRefreshRec ∈ [oldRefreshRec, freshAccessRec, keeperRec] ∧
      matchesCutoff ((8640000 : Int) - 30 * 86400) oldRefreshRec = true ∧
      oldRefreshRec
        ∉ cleanup_expired_tokens [oldRefreshRec, freshAccessRec, keeperRec]
            8640000 30) ∧
    (freshAccessRec ∈ [oldRefreshRec, freshAccessRec, keeperRec] ∧
      freshAccessRec.refreshTokenId = some 1 ∧
      freshAccessRec
        ∉ cleanup_expired_tokens [oldRefreshRec, freshAccessRec, keeperRec]
            8640000 30) ∧
    (keeperRec ∈ [oldRefreshRec, freshAccessRec, keeperRec] ∧
      keeperRec.refreshTokenId = none ∧ keeperRec.revokedAt = none ∧
      (8640000 : Int) < keeperRec.expiresAt ∧
      keeperRec
        ∈ cleanup_expired_tokens [oldRefreshRec, freshAccessRec, keeperRec]
            8640000 30) :=
  ⟨⟨by decide, by decide,
    (purge_spec [oldRefreshRec, freshAccessRec, keeperRec] 8640000 30).1
      oldRefreshRec (by decide) (by decide)⟩,
   ⟨by decide, rfl,
    (purge_spec [oldRefreshRec, freshAccessRec, keeperRec] 8640000 30).2.2.1
      freshAccessRec (by decide) 1 rfl oldRefreshRec (by decide) (by decide)⟩,
   ⟨by decide, rfl, rfl, by decide,
    (purge_spec [oldRefreshRec, freshAccessRec, keeperRec] 8640000 30).2.2.2
      keeperRec (by decide) rfl rfl (by decide) (by decide)⟩⟩

/-! ## C8 -/

/-- When its user has no active assignment, the chat-side token lookup
returns the configured fallback credential. -/
theorem get_api_token_fallback (pool : List HuggingFaceToken)
    (asg : List UserHFTokenAssignment) (uid : Nat) (settingsToken : String)
    (h : forall a, a ∈ asg → a.userId = uid → a.isActive = false) :
    get_api_token pool asg (some uid) settingsToken = settingsToken := by
  have hfind : asg.reverse.find?
      (fun a => decide (a.userId = uid ∧ a.isActive = true)) = none := by
    apply List.find?_eq_none.mpr
    intro a ha hpa
    simp only [decide_eq_true_eq] at hpa
    have := h a (List.mem_reverse.mp ha) hpa.1
    rw [this] at hpa
    cases hpa.2
  simp only [get_api_token]
  rw [hfind]

/-- C8: when no active pool entry exists, login still succeeds — the
response is 200 with both token cookies bound, no Assignment is created
(the ledger is returned unchanged), and, the user having no live
assignment, the chat service falls back to the configured default
credential; pool exhaustion is never surfaced as a login failure. -/
theorem pool_exhausted_login_succeeds (store : List AuthToken)
    (asg : List UserHFTokenAssignment) (pool : List HuggingFaceToken)
    (uid : Nat) (mr ma : MintedToken) (ip : Option String) (ua : String)
    (now : Int) (asgId rId aId : Nat) (settingsToken : String)
    (hexhausted : ∀ e ∈ pool, e.isActive = false)
    (hnoactive : ∀ a ∈ asg, a.userId = uid → a.isActive = false) :
    loginPost store asg pool (some uid) true mr ma ip ua now asgId rId aId =
      ⟨store ++
        [{ id := rId, userId := uid, tokenType := TokenType.refresh,
           tokenHash := mr.hash, jti := mr.jti, ipAddress := ip,
           userAgent := ua, createdAt := now, expiresAt := mr.exp,
           revokedAt := none, isRevoked := false, refreshTokenId := none },
         { id := aId, userId := uid, tokenType := TokenType.access,
           tokenHash := ma.hash, jti := ma.jti, ipAddress := ip,
           userAgent := ua, createdAt := now, expiresAt := ma.exp,
           revokedAt := none, isRevoked := false, refreshTokenId := some rId }],
        asg, ⟨200, true, true⟩⟩ ∧
    get_api_token pool asg (some uid) settingsToken = settingsToken := by
  have hfilter : pool.filter (fun t => t.isActive) = [] :=
    List.filter_eq_nil_iff.mpr (fun e he => by simp [hexhausted e he])
  have hsel : select_least_loaded pool asg = none := by
    unfold select_least_loaded activeOrdered
    rw [hfilter]
    rfl
  have hassign : assign_hf_token pool asg uid mr.jti now asgId = (asg, none) := by
    unfold assign_hf_token
    rw [hsel]
  constructor
  · simp [loginPost, hassign, save_token_to_db]
  · exact get_api_token_fallback pool asg uid settingsToken hnoactive

/-- C8, witness: a login against a pool holding only an inactive entry. -/
theorem pool_exhausted_login_succeeds_witness :
    ((∀ e ∈ [hfOff], e.isActive = false) ∧
      (∀ a ∈ ([] : List UserHFTokenAssignment), a.userId = 7 →
        a.isActive = false)) ∧
    (loginPost [] [] [hfOff] (some 7) true mintedR mintedA none "" 0 1 1 2 =
      ⟨[] ++
        [{ id := 1, userId := 7, tokenType := TokenType.refresh,
           tokenHash := mintedR.hash, jti := mintedR.jti, ipAddress := none,
           userAgent := "", createdAt := 0, expiresAt := mintedR.exp,
           revokedAt := none, isRevoked := false, refreshTokenId := none },
         { id := 2, userId := 7, tokenType := TokenType.access,
           tokenHash := mintedA.hash, jti := mintedA.jti, ipAddress := none,
           userAgent := "", createdAt := 0, expiresAt := mintedA.exp,
           revokedAt := none, isRevoked := false, refreshTokenId := some 1 }],
        [], ⟨200, true, true⟩⟩ ∧
      get_api_token [hfOff] [] (some 7) "default" = "default") :=
  ⟨⟨by decide, by decide⟩,
   pool_exhausted_login_succeeds [] [] [hfOff] 7 mintedR mintedA none "" 0 1 1 2
     "default" (by decide) (by decide)⟩

/-! ## C9 -/

/-- C9: a refresh with a valid (present, refresh-typed, unrevoked,
unexpired, structurally parseable) refresh token appends exactly one new
access TokenRecord parented to the presented refresh record and changes
nothing else: the rest of the store, the Assignment ledger, and the
transport-bound refresh credential are untouched; only the access cookie is
rebound. -/
theorem refresh_frame_spec (store : List AuthToken)
    (asg : List UserHFTokenAssignment) (tok : RawToken) (minted : MintedToken)
    (ip : Option String) (ua : String) (now : Int) (newId : Nat)
    (hs : tok.structOk = true) (hnd : (store.map AuthToken.tokenHash).Nodup)
    (r : AuthToken) (hr : r ∈ store) (hhash : r.tokenHash = tok.hash)
    (htype : r.tokenType = TokenType.refresh) (hnrev : r.isRevoked = false)
    (hexp : now ≤ r.expiresAt) :
    tokenRefreshPost store asg (some tok) minted ip ua now newId =
      ⟨store ++
        [{ id := newId, userId := r.userId, tokenType := TokenType.access,
           tokenHash := minted.hash, jti := minted.jti, ipAddress := ip,
           userAgent := ua, createdAt := now, expiresAt := minted.exp,
           revokedAt := none, isRevoked := false,
           refreshTokenId := some r.id }],
        asg, ⟨200, true, false⟩⟩ := by
  have hfind : store.find? (fun t =>
      decide (t.tokenHash = tok.hash ∧ t.tokenType = TokenType.refresh ∧
        t.isRevoked = false)) = some r := by
    apply store_find_by_hash _ hnd hr
    · simp [hhash, htype, hnrev]
    · intro s hps
      simp only [decide_eq_true_eq] at hps
      rw [hps.1, hhash]
  have hv : r.is_valid now = true := by
    simp [AuthToken.is_valid, AuthToken.is_expired, hnrev]
    omega
  simp only [tokenRefreshPost]
  rw [hfind]
  simp [hv, hs, save_token_to_db]

/-- C9, witness: the refresh-transition frame contract at a concrete
one-record store carrying one active assignment. -/
theorem refresh_frame_spec_witness :
    (rawRefresh.structOk = true ∧
      (([refreshRec].map AuthToken.tokenHash).Nodup) ∧
      refreshRec ∈ [refreshRec] ∧ refreshRec.tokenHash = rawRefresh.hash ∧
      refreshRec.tokenType = TokenType.refresh ∧
      refreshRec.isRevoked = false ∧ (100 : Int) ≤ refreshRec.expiresAt) ∧
    tokenRefreshPost [refreshRec] [asgActive] (some rawRefresh) mintedA2
        none "" 100 5 =
      ⟨[refreshRec] ++
        [{ id := 5, userId := refreshRec.userId,
           tokenType := TokenType.access, tokenHash := mintedA2.hash,
           jti := mintedA2.jti, ipAddress := none, userAgent := "",
           createdAt := 100, expiresAt := mintedA2.exp, revokedAt := none,
           isRevoked := false, refreshTokenId := some refreshRec.id }],
        [asgActive], ⟨200, true, false⟩⟩ :=
  ⟨⟨rfl, by decide, by decide, rfl, rfl, rfl, by decide⟩,
   refresh_frame_spec [refreshRec] [asgActive] rawRefresh mintedA2 none "" 100 5
     rfl (by decide) refreshRec (by decide) rfl rfl rfl (by decide)⟩


/-! ## C3: properties of the stable sort and of first-minimum selection -/

/-- Inserting into the sorted usage list never yields the empty list. -/
theorem insertLoad_ne_nil (p : HuggingFaceToken × Nat)
    (L : List (HuggingFaceToken × Nat)) : insertLoad p L ≠ [] := by
  cases L with
  | nil => simp [insertLoad]
  | cons q qs =>
    unfold insertLoad
    split <;> simp

/-- The stable sort returns the empty list only on the empty list. -/
theorem sortLoad_eq_nil_iff (L : List (HuggingFaceToken × Nat)) :
    sortLoad L = [] ↔ L = [] := by
  cases L with
  | nil => simp [sortLoad]
  | cons p ps => simp [sortLoad, insertLoad_ne_nil]

/-- `pickMin` returns `none` only on the empty list. -/
theorem pickMin_eq_none_iff (L : List (HuggingFaceToken × Nat)) :
    pickMin L = none ↔ L = [] := by
  cases L with
  | nil => simp [pickMin]
  | cons p ps =>
    unfold pickMin
    cases pickMin ps
    · simp
    · simp only [List.cons_ne_nil, iff_false]
      split <;> simp

/-- The head of the stable ascending sort is the first minimum of the input,
computed by `pickMin`. -/
theorem head?_sortLoad (L : List (HuggingFaceToken × Nat)) :
    (sortLoad L).head? = pickMin L := by
  induction L with
  | nil => rfl
  | cons p ps ih =>
    show (insertLoad p (sortLoad ps)).head? = pickMin (p :: ps)
    cases hsp : sortLoad ps with
    | nil =>
      have hps : pickMin ps = none := by rw [← ih, hsp]; rfl
      have h2 : pickMin (p :: ps) = some p := by
        unfold pickMin
        rw [hps]
      rw [h2]
      rfl
    | cons q qs =>
      have hq : pickMin ps = some q := by rw [← ih, hsp]; rfl
      have h2 : pickMin (p :: ps) = if p.2 ≤ q.2 then some p else some q := by
        unfold pickMin
        rw [hq]
      rw [h2]
      unfold insertLoad
      by_cases hle : p.2 ≤ q.2 <;> simp [hle]

/-- The element `pickMin` returns belongs to the list. -/
theorem pickMin_mem {L : List (HuggingFaceToken × Nat)}
    {p : HuggingFaceToken × Nat} (h : pickMin L = some p) : p ∈ L := by
  induction L generalizing p with
  | nil => cases h
  | cons a l ih =>
    cases hl : pickMin l with
    | none =>
      have hred : pickMin (a :: l) = some a := by
        unfold pickMin
        rw [hl]
      rw [hred] at h
      injection h with h
      rw [← h]
      exact List.mem_cons_self a l
    | some m =>
      have hred : pickMin (a :: l) = if a.2 ≤ m.2 then some a else some m := by
        unfold pickMin
        rw [hl]
      rw [hred] at h
      by_cases hle : a.2 ≤ m.2
      · rw [if_pos hle] at h
        injection h with h
        rw [← h]
        exact List.mem_cons_self a l
      · rw [if_neg hle] at h
        injection h with h
        rw [← h]
        exact List.mem_cons_of_mem a (ih hl)

/-- The element `pickMin` returns has the minimal usage count. -/
theorem pickMin_le {L : List (HuggingFaceToken × Nat)}
    {p : HuggingFaceToken × Nat} (h : pickMin L = some p) :
    ∀ q ∈ L, p.2 ≤ q.2 := by
  induction L generalizing p with
  | nil => cases h
  | cons a l ih =>
    intro q hq
    cases hl : pickMin l with
    | none =>
      have hlnil : l = [] := (pickMin_eq_none_iff l).mp hl
      have hred : pickMin (a :: l) = some a := by
        unfold pickMin
        rw [hl]
      rw [hred] at h
      injection h with h
      subst hlnil
      rcases List.mem_cons.mp hq with heq | hq'
      · rw [heq, ← h]
      · cases hq'
    | some m =>
      have hred : pickMin (a :: l) = if a.2 ≤ m.2 then some a else some m := by
        unfold pickMin
        rw [hl]
      rw [hred] at h
      rcases List.mem_cons.mp hq with heq | hq'
      · by_cases hle : a.2 ≤ m.2
        · rw [if_pos hle] at h
          injection h with h
          rw [heq, ← h]
        · rw [if_neg hle] at h
          injection h with h
          rw [heq, ← h]
          omega
      · by_cases hle : a.2 ≤ m.2
        · rw [if_pos hle] at h
          injection h with h
          rw [← h]
          exact le_trans hle (ih hl q hq')
        · rw [if_neg hle] at h
          injection h with h
          rw [← h]
          exact ih hl q hq'

/-- `pickMin` returns the FIRST minimum: every element strictly before it in
the list has a strictly larger usage count. -/
theorem pickMin_split {L : List (HuggingFaceToken × Nat)}
    {p : HuggingFaceToken × Nat} (h : pickMin L = some p) :
    ∃ L₁ L₂, L = L₁ ++ p :: L₂ ∧ ∀ q ∈ L₁, p.2 < q.2 := by
  induction L generalizing p with
  | nil => cases h
  | cons a l ih =>
    cases hl : pickMin l with
    | none =>
      have hred : pickMin (a :: l) = some a := by
        unfold pickMin
        rw [hl]
      rw [hred] at h
      injection h with h
      subst h
      exact ⟨[], l, rfl, by simp⟩
    | some m =>
      have hred : pickMin (a :: l) = if a.2 ≤ m.2 then some a else some m := by
        unfold pickMin
        rw [hl]
      rw [hred] at h
      by_cases hle : a.2 ≤ m.2
      · rw [if_pos hle] at h
        injection h with h
        subst h
        exact ⟨[], l, rfl, by simp⟩
      · rw [if_neg hle] at h
        injection h with h
        subst h
        obtain ⟨L₁, L₂, heq, hlt⟩ := ih hl
        refine ⟨a :: L₁, L₂, by rw [heq]; rfl, ?_⟩
        intro q hq
        rcases List.mem_cons.mp hq with rfl | hq'
        · omega
        · exact hlt q hq'

/-- Two decompositions of a list around elements carrying the same key
coincide when the mapped keys are pairwise distinct. -/
theorem append_cons_key_unique (key : HuggingFaceToken × Nat → Nat) :
    ∀ (A C : List (HuggingFaceToken × Nat)) (x y : HuggingFaceToken × Nat)
      (B D : List (HuggingFaceToken × Nat)),
      A ++ x :: B = C ++ y :: D → key x = key y →
      ((A ++ x :: B).map key).Nodup → A = C ∧ x = y ∧ B = D := by
  intro A
  induction A with
  | nil =>
    intro C x y B D heq hkey hnd
    cases C with
    | nil =>
      simp only [List.nil_append, List.cons.injEq] at heq
      exact ⟨rfl, heq.1, heq.2⟩
    | cons c0 C0 =>
      simp only [List.nil_append, List.cons_append, List.cons.injEq] at heq
      obtain ⟨rfl, hB⟩ := heq
      exfalso
      have hyB : y ∈ B := by rw [hB]; simp
      have hymap : key y ∈ B.map key := List.mem_map_of_mem key hyB
      have hnd' : (key x :: B.map key).Nodup := by simpa using hnd
      exact (List.nodup_cons.mp hnd').1 (hkey ▸ hymap)
  | cons a A0 ih =>
    intro C x y B D heq hkey hnd
    cases C with
    | nil =>
      simp only [List.cons_append, List.nil_append, List.cons.injEq] at heq
      obtain ⟨rfl, hD⟩ := heq
      exfalso
      have hnda : (key a :: (A0 ++ x :: B).map key).Nodup := by simpa using hnd
      have hx : x ∈ A0 ++ x :: B := by simp
      have hxmap : key x ∈ (A0 ++ x :: B).map key := List.mem_map_of_mem key hx
      exact (List.nodup_cons.mp hnda).1 (hkey ▸ hxmap)
    | cons c0 C0 =>
      simp only [List.cons_append, List.cons.injEq] at heq
      obtain ⟨rfl, htail⟩ := heq
      have hnd' : ((A0 ++ x :: B).map key).Nodup := by
        have : (key a :: (A0 ++ x :: B).map key).Nodup := by simpa using hnd
        exact (List.nodup_cons.mp this).2
      obtain ⟨h1, h2, h3⟩ := ih C0 x y B D htail hkey hnd'
      exact ⟨by rw [h1], h2, h3⟩

/-- C3, counterexample to the claim as stated: two active entries tied at
zero active assignments — the selection returns the LATER-inserted entry
`hfB`, not the earliest, because the queryset is ordered by
`Meta.ordering = ['-created_at']` (newest first) and Python's stable sort
keeps that order among ties. -/
theorem select_tie_counterexample :
    select_least_loaded [hfA, hfB] [] = some hfB ∧
    hfA.isActive = true ∧ hfB.isActive = true ∧
    activeCount [] hfA.id = activeCount [] hfB.id ∧
    hfA.id ≠ hfB.id := by
  refine ⟨rfl, rfl, rfl, rfl, by decide⟩

/-- C3 (amended): with at least one active entry, the selection
deterministically returns an active pool entry whose count of active
Assignments is minimal among active entries; when several tie at the
minimum it returns the one LATEST in pool-entry insertion order (every
active entry strictly after the chosen one carries a strictly larger
count). -/
theorem select_least_loaded_spec (pool : List HuggingFaceToken)
    (asg : List UserHFTokenAssignment)
    (hnd : (pool.map HuggingFaceToken.id).Nodup)
    (hactive : ∃ e ∈ pool, e.isActive = true) :
    ∃ t, select_least_loaded pool asg = some t ∧ t ∈ pool ∧
      t.isActive = true ∧
      (∀ e ∈ pool, e.isActive = true →
        activeCount asg t.id ≤ activeCount asg e.id) ∧
      (∀ l₁ l₂, pool = l₁ ++ t :: l₂ → ∀ e ∈ l₂, e.isActive = true →
        activeCount asg t.id < activeCount asg e.id) := by
  obtain ⟨e0, he0, hact0⟩ := hactive
  have he0avail : e0 ∈ activeOrdered pool := by
    unfold activeOrdered
    rw [List.mem_reverse]
    exact List.mem_filter.mpr ⟨he0, hact0⟩
  set usage := (activeOrdered pool).map
    (fun x => (x, activeCount asg x.id)) with husage
  have husage_ne : usage ≠ [] := by
    intro hnil
    rw [husage, List.map_eq_nil_iff] at hnil
    rw [hnil] at he0avail
    cases he0avail
  obtain ⟨pc, hpc⟩ : ∃ pc, pickMin usage = some pc := by
    cases hpm : pickMin usage with
    | none => exact absurd ((pickMin_eq_none_iff usage).mp hpm) husage_ne
    | some pc => exact ⟨pc, rfl⟩
  obtain ⟨t, c⟩ := pc
  obtain ⟨xs, hsu⟩ : ∃ xs, sortLoad usage = (t, c) :: xs := by
    cases hsu : sortLoad usage with
    | nil => exact absurd ((sortLoad_eq_nil_iff usage).mp hsu) husage_ne
    | cons x xs =>
      have h1 : (sortLoad usage).head? = some x := by rw [hsu]; rfl
      rw [head?_sortLoad, hpc] at h1
      injection h1 with h1
      exact ⟨xs, by rw [h1]⟩
  have htc_mem : (t, c) ∈ usage := pickMin_mem hpc
  obtain ⟨u, hu_avail, huv⟩ := List.mem_map.mp htc_mem
  rw [Prod.mk.injEq] at huv
  obtain ⟨huT, hcu⟩ := huv
  rw [huT] at hu_avail hcu
  have hcval : c = activeCount asg t.id := hcu.symm
  have hmem_pool : t ∈ pool ∧ t.isActive = true := by
    unfold activeOrdered at hu_avail
    rw [List.mem_reverse] at hu_avail
    have := List.mem_filter.mp hu_avail
    exact ⟨this.1, this.2⟩
  have hsel : select_least_loaded pool asg = some t := by
    have hne : (activeOrdered pool).isEmpty = false := by
      cases hav : activeOrdered pool with
      | nil => rw [hav] at he0avail; cases he0avail
      | cons _ _ => rfl
    simp only [select_least_loaded]
    rw [hne, ← husage, hsu]
    simp
  refine ⟨t, hsel, hmem_pool.1, hmem_pool.2, ?_, ?_⟩
  · intro e he hee
    have heavail : e ∈ activeOrdered pool := by
      unfold activeOrdered
      rw [List.mem_reverse]
      exact List.mem_filter.mpr ⟨he, hee⟩
    have hmem : (e, activeCount asg e.id) ∈ usage :=
      List.mem_map.mpr ⟨e, heavail, rfl⟩
    have hle := pickMin_le hpc _ hmem
    rw [hcval] at hle
    exact hle
  · intro l₁ l₂ hsplit e he2 hae2
    obtain ⟨U₁, U₂, husplit, hU1⟩ := pickMin_split hpc
    have hfilter : pool.filter (fun x => x.isActive) =
        l₁.filter (fun x => x.isActive) ++
          t :: l₂.filter (fun x => x.isActive) := by
      rw [hsplit, List.filter_append]
      congr 1
      rw [List.filter_cons]
      simp [hmem_pool.2]
    have havail2 : activeOrdered pool =
        (l₂.filter (fun x => x.isActive)).reverse ++
          t :: (l₁.filter (fun x => x.isActive)).reverse := by
      unfold activeOrdered
      rw [hfilter, List.reverse_append, List.reverse_cons]
      simp [List.append_assoc]
    have husage2 : usage =
        ((l₂.filter (fun x => x.isActive)).reverse.map
          (fun x => (x, activeCount asg x.id))) ++
          (t, activeCount asg t.id) ::
          ((l₁.filter (fun x => x.isActive)).reverse.map
            (fun x => (x, activeCount asg x.id))) := by
      rw [husage, havail2, List.map_append, List.map_cons]
    have hkeys : (usage.map (fun q => q.1.id)).Nodup := by
      have hmm : usage.map (fun q => q.1.id) =
          (activeOrdered pool).map (fun x => x.id) := by
        rw [husage, List.map_map]
        rfl
      rw [hmm]
      unfold activeOrdered
      rw [List.map_reverse, List.nodup_reverse]
      exact List.Nodup.sublist
        (List.Sublist.map _ (List.filter_sublist pool)) hnd
    obtain ⟨hA, _, _⟩ := append_cons_key_unique (fun q => q.1.id)
      ((l₂.filter (fun x => x.isActive)).reverse.map
        (fun x => (x, activeCount asg x.id))) U₁
      (t, activeCount asg t.id) (t, c)
      ((l₁.filter (fun x => x.isActive)).reverse.map
        (fun x => (x, activeCount asg x.id))) U₂
      (husage2.symm.trans husplit) rfl (by rw [← husage2]; exact hkeys)
    have hfe : (e, activeCount asg e.id) ∈ U₁ := by
      rw [← hA]
      apply List.mem_map_of_mem
      rw [List.mem_reverse]
      exact List.mem_filter.mpr ⟨he2, hae2⟩
    have hlt := hU1 _ hfe
    rw [hcval] at hlt
    exact hlt

/-- C3, witness: the amended selection contract at a two-entry pool with an
empty ledger. -/
theorem select_least_loaded_spec_witness :
    ((([hfA, hfB].map HuggingFaceToken.id).Nodup) ∧
      (∃ e ∈ [hfA, hfB], e.isActive = true)) ∧
    (∃ t, select_least_loaded [hfA, hfB] [] = some t ∧ t ∈ [hfA, hfB] ∧
      t.isActive = true ∧
      (∀ e ∈ [hfA, hfB], e.isActive = true →
        activeCount [] t.id ≤ activeCount [] e.id) ∧
      (∀ l₁ l₂, [hfA, hfB] = l₁ ++ t :: l₂ → ∀ e ∈ l₂, e.isActive = true →
        activeCount [] t.id < activeCount [] e.id)) :=
  ⟨⟨by decide, ⟨hfA, by decide, rfl⟩⟩,
   select_least_loaded_spec [hfA, hfB] [] (by decide) ⟨hfA, by decide, rfl⟩⟩

/-! ## C7 -/

/-- Releasing only flips rows to inactive, so the number of active
assignments for any session never grows. -/
theorem activeForSession_release_le (asg : List UserHFTokenAssignment)
    (u : Nat) (s : String) (n : Int) (sid : String) :
    activeForSession (release_hf_token asg u s n) sid
      ≤ activeForSession asg sid := by
  induction asg with
  | nil => exact le_refl _
  | cons a l ih =>
    have hstep : release_hf_token (a :: l) u s n =
        (if a.userId = u ∧ a.sessionIdentifier = s ∧ a.isActive = true then
          { a with isActive := false, releasedAt := some n } else a) ::
        release_hf_token l u s n := by
      unfold release_hf_token
      rw [List.map_cons]
    rw [hstep]
    unfold activeForSession
    rw [List.filter_cons, List.filter_cons]
    by_cases hcond : a.userId = u ∧ a.sessionIdentifier = s ∧ a.isActive = true
    · rw [if_pos hcond]
      have hpf : (({ a with isActive := false, releasedAt := some n }
          : UserHFTokenAssignment).isActive &&
          decide (({ a with isActive := false, releasedAt := some n }
          : UserHFTokenAssignment).sessionIdentifier = sid)) = false := by
        simp
      rw [hpf]
      by_cases hpa : (a.isActive && decide (a.sessionIdentifier = sid)) = true
      · rw [if_pos hpa]
        simp only [Bool.false_eq_true, if_false, List.length_cons]
        exact le_trans ih (Nat.le_succ _)
      · rw [if_neg hpa]
        simp only [Bool.false_eq_true, if_false]
        exact ih
    · rw [if_neg hcond]
      by_cases hpa : (a.isActive && decide (a.sessionIdentifier = sid)) = true
      · rw [if_pos hpa, if_pos hpa]
        simp only [List.length_cons]
        exact Nat.succ_le_succ ih
      · rw [if_neg hpa, if_neg hpa]
        exact ih

/-- Appending one row changes the per-session active count by exactly its
own contribution. -/
theorem activeForSession_append_new (asg : List UserHFTokenAssignment)
    (new : UserHFTokenAssignment) (sid : String) :
    activeForSession (asg ++ [new]) sid = activeForSession asg sid +
      (if (new.isActive && decide (new.sessionIdentifier = sid)) = true
        then 1 else 0) := by
  unfold activeForSession
  rw [List.filter_append, List.length_append]
  congr 1
  by_cases h : (new.isActive && decide (new.sessionIdentifier = sid)) = true
  · rw [if_pos h]
    simp [List.filter_cons, h]
  · rw [if_neg h]
    simp [List.filter_cons, h]

/-- A session identifier carried by no row has active count zero. -/
theorem activeForSession_eq_zero (asg : List UserHFTokenAssignment)
    (s : String) (h : ∀ a ∈ asg, a.sessionIdentifier ≠ s) :
    activeForSession asg s = 0 := by
  unfold activeForSession
  rw [List.filter_eq_nil_iff.mpr (fun a ha => by simp [h a ha])]
  rfl

/-- C7, counterexample to the claim as stated: a trace whose second assign
reuses the session identifier of the first (nothing in the code or schema
forbids it — `session_identifier` only carries a non-unique index) ends
with TWO active assignments for that identifier. -/
theorem assign_duplicate_session_counterexample :
    activeForSession (applyPoolOps [hfA] [] opsDup) "s" = 2 ∧
    ¬(activeForSession (applyPoolOps [hfA] [] opsDup) "s" ≤ 1) := by
  constructor
  · rfl
  · decide

/-- C7 (amended): for every sequence of assign/release calls in which each
assign uses a session identifier carried by no existing ledger row — the
discipline the program guarantees, as every login keys its assign by a
freshly minted refresh-token `jti` — at most one Assignment with
`is_active = true` references any given session identifier at any time. -/
theorem at_most_one_active_assignment (pool : List HuggingFaceToken)
    (asg0 : List UserHFTokenAssignment) (ops : List PoolOp)
    (h0 : ∀ sid, activeForSession asg0 sid ≤ 1)
    (hf : freshAssigns pool asg0 ops = true) :
    ∀ sid, activeForSession (applyPoolOps pool asg0 ops) sid ≤ 1 := by
  induction ops generalizing asg0 with
  | nil => exact h0
  | cons op ops ih =>
    show ∀ sid,
      activeForSession (applyPoolOps pool (applyPoolOp pool asg0 op) ops) sid ≤ 1
    cases op with
    | release u s n =>
      have h := hf
      simp only [freshAssigns, Bool.and_eq_true] at h
      apply ih _ ?_ h.2
      intro sid
      exact le_trans (activeForSession_release_le asg0 u s n sid) (h0 sid)
    | assign u s n i =>
      have h := hf
      simp only [freshAssigns, Bool.and_eq_true] at h
      apply ih _ ?_ h.2
      intro sid
      have hfresh : ∀ a ∈ asg0, a.sessionIdentifier ≠ s := by
        intro a ha
        have h2 := List.all_eq_true.mp h.1 a ha
        simpa using h2
      show activeForSession (assign_hf_token pool asg0 u s n i).1 sid ≤ 1
      unfold assign_hf_token
      cases hsel : select_least_loaded pool asg0 with
      | none => exact h0 sid
      | some t =>
        show activeForSession (asg0 ++
          [{ id := i, userId := u, hfTokenId := t.id, assignedAt := n,
             releasedAt := none, isActive := true,
             sessionIdentifier := s }]) sid ≤ 1
        rw [activeForSession_append_new]
        by_cases hs : s = sid
        · subst hs
          rw [activeForSession_eq_zero asg0 s hfresh]
          simp
        · have : ((true : Bool) && decide (s = sid)) = false := by simp [hs]
          simp only [this, Bool.false_eq_true, if_false]
          exact Nat.le_trans (Nat.le_refl _) (by simpa using h0 sid)

/-- C7, witness: the invariant holds along a fresh-identifier trace of
assign, release, assign. -/
theorem at_most_one_active_assignment_witness :
    ((∀ sid, activeForSession [] sid ≤ 1) ∧
      freshAssigns [hfA] [] opsW = true) ∧
    (∀ sid, activeForSession (applyPoolOps [hfA] [] opsW) sid ≤ 1) :=
  ⟨⟨fun sid => by simp [activeForSession], by decide⟩,
   at_most_one_active_assignment [hfA] [] opsW
     (fun sid => by simp [activeForSession]) (by decide)⟩

end HumanoidAI
